import Mathlib

/-!
Verification of the core data transformations of the seller-apis repository
(seller.py for the Ozon marketplace, market.py for Yandex Market).

The Python functions are shallowly embedded as executable Lean definitions:
  * feed rows (spreadsheet records) become the structure FeedRow, with the
    code field already converted to a string, as every use site does via str;
  * Python exceptions become Except Err results; ValueError raised by int and
    by range corresponds to the parseError and invalidArgument constructors;
  * the in-place mutation of the offer_ids list performed by create_stocks is
    made explicit: the embedded function returns the final state of the list
    alongside its result (the post-state is only meaningful for completed
    calls, since an exception aborts the whole run in the source);
  * the paginated catalog fetch loops, which iterate until a remote signal,
    take the page collaborator as a function argument and a fuel bound that
    models the number of loop iterations the run is allowed to take.
-/

namespace SellerApis

/-- Errors of the embedded fragment.  parseError models the ValueError raised
by the Python builtin int on a non-numeric string (the ParseError of the spec
taxonomy); invalidArgument models the ValueError raised by range on a zero
step (the InvalidArgument of the spec taxonomy). -/
inductive Err where
  | parseError
  | invalidArgument
deriving DecidableEq

/-- Model of the Python builtin int applied to a string: surrounding
whitespace is stripped, an optional sign is allowed, and the remainder must
be a nonempty run of decimal digits.  (Digit-group underscores and non-ASCII
digits, which CPython also accepts, are outside the model; no input in this
development uses them.) -/
def pyInt (s : String) : Option Int :=
  let t := ((s.toList.dropWhile Char.isWhitespace).reverse.dropWhile
    Char.isWhitespace).reverse
  let signed : Int × List Char :=
    match t with
    | '+' :: cs => (1, cs)
    | '-' :: cs => (-1, cs)
    | cs => (1, cs)
  if signed.2 ≠ [] ∧ signed.2.all Char.isDigit then
    some (signed.1 * (signed.2.foldl (fun n c => 10 * n + (c.toNat - '0'.toNat)) 0 : Nat))
  else
    none

/-- One record of the timeworld.ru spreadsheet feed, restricted to the three
columns the synchronization logic reads.  code is str of the raw cell;
quantity and price are the raw label strings. -/
structure FeedRow where
  code : String
  quantity : String
  price : String
deriving DecidableEq

namespace Seller

/-- seller.py price_conversion: take the part of the string before the first
dot and delete every character that is not a decimal digit. -/
def price_conversion (price : String) : String :=
  String.mk ((price.toList.takeWhile (fun c => c != '.')).filter Char.isDigit)

/-- Chunking helper for a positive chunk size n + 1: the fuel argument bounds
the recursion depth and is instantiated with the length of the list, which
always suffices because every step consumes at least one element. -/
def chunksGo (n : Nat) : Nat → List α → List (List α)
  | 0, _ => []
  | _, [] => []
  | fuel + 1, x :: xs => ((x :: xs).take (n + 1)) :: chunksGo n fuel (xs.drop n)

/-- The chunk list produced by divide for chunk size n + 1. -/
def chunks (n : Nat) (lst : List α) : List (List α) :=
  chunksGo n lst.length lst

/-- seller.py divide: a generator over range(0, len(lst), n) yielding the
slices lst[i : i + n].  range raises ValueError on a zero step, and with a
negative step and a nonnegative stop it is empty, so the generator yields
nothing for n < 0. -/
def divide (lst : List α) (n : Int) : Except Err (List (List α)) :=
  if n = 0 then .error .invalidArgument
  else if n < 0 then .ok []
  else .ok (chunks (n.toNat - 1) lst)

/-- One element of the stocks payload built by seller.py create_stocks. -/
structure Stock where
  offer_id : String
  stock : Int
deriving DecidableEq

/-- The first loop of seller.py create_stocks: walk the feed rows, and for
every row whose code is still in offer_ids resolve the count, append the
payload entry and remove the code from offer_ids (list.remove deletes the
first occurrence).  The accumulator carries the stocks list built so far and
the current state of offer_ids. -/
def stocksLoop : List FeedRow → List Stock → List String →
    Except Err (List Stock × List String)
  | [], stocks, offer_ids => .ok (stocks, offer_ids)
  | watch :: rest, stocks, offer_ids =>
    if watch.code ∈ offer_ids then
      let count := watch.quantity
      let stockE : Except Err Int :=
        if count = ">10" then .ok 100
        else if count = "1" then .ok 0
        else
          match pyInt watch.quantity with
          | some k => .ok k
          | none => .error .parseError
      match stockE with
      | .error e => .error e
      | .ok stock =>
        stocksLoop rest (stocks ++ [⟨watch.code, stock⟩]) (offer_ids.erase watch.code)
    else stocksLoop rest stocks offer_ids

/-- seller.py create_stocks: the row loop above followed by the second loop
that appends a zero-stock entry for every offer id left in the list.  The
second component of the result is the final state of the mutated offer_ids
argument. -/
def create_stocks (watch_remnants : List FeedRow) (offer_ids : List String) :
    Except Err (List Stock × List String) :=
  match stocksLoop watch_remnants [] offer_ids with
  | .error e => .error e
  | .ok (stocks, remaining) =>
    .ok (stocks ++ remaining.map (fun offer_id => ⟨offer_id, 0⟩), remaining)

/-- One element of the prices payload built by seller.py create_prices. -/
structure Price where
  auto_action_enabled : String
  currency_code : String
  offer_id : String
  old_price : String
  price : String
deriving DecidableEq

/-- The loop of seller.py create_prices: one payload entry per feed row whose
code is in offer_ids; other rows are skipped.  The loop reads offer_ids but
never modifies it. -/
def pricesLoop (offer_ids : List String) : List FeedRow → List Price
  | [] => []
  | watch :: rest =>
    if watch.code ∈ offer_ids then
      { auto_action_enabled := "UNKNOWN", currency_code := "RUB",
        offer_id := watch.code, old_price := "0",
        price := price_conversion watch.price } :: pricesLoop offer_ids rest
    else pricesLoop offer_ids rest

/-- seller.py create_prices.  The second component is the final state of the
offer_ids argument, which the function never mutates. -/
def create_prices (watch_remnants : List FeedRow) (offer_ids : List String) :
    List Price × List String :=
  (pricesLoop offer_ids watch_remnants, offer_ids)

/-- One product item of an Ozon product-list page, restricted to the only
field the fetcher reads. -/
structure Product where
  offer_id : String
deriving DecidableEq

/-- One page returned by the Ozon product/list endpoint, as read by
seller.py get_offer_ids. -/
structure ProductPage where
  items : List Product
  total : Nat
  last_id : String

/-- The while loop of seller.py get_offer_ids: fetch a page, extend the
accumulated product list, and stop once the server-reported total equals the
running length.  fetch models get_product_list as a collaborator from the
last_id cursor to a page or an upstream error; the fuel bounds the number of
iterations and ok none models a run that never reaches the stop signal. -/
def offerIdsLoop (fetch : String → Except ε ProductPage) :
    Nat → String → List Product → Except ε (Option (List Product))
  | 0, _, _ => .ok none
  | fuel + 1, last_id, product_list =>
    match fetch last_id with
    | .error e => .error e
    | .ok page =>
      let product_list := product_list ++ page.items
      if page.total = product_list.length then .ok (some product_list)
      else offerIdsLoop fetch fuel page.last_id product_list

/-- seller.py get_offer_ids: run the pagination loop from an empty cursor and
then extract offer_id from every accumulated product. -/
def get_offer_ids (fetch : String → Except ε ProductPage) (fuel : Nat) :
    Except ε (Option (List String)) :=
  match offerIdsLoop fetch fuel "" [] with
  | .error e => .error e
  | .ok none => .ok none
  | .ok (some product_list) => .ok (some (product_list.map Product.offer_id))

/-- The batches handed to update_stocks by seller.py upload_stocks:
list(divide(stocks, 100)). -/
def upload_stocks_batches (stocks : List Stock) : Except Err (List (List Stock)) :=
  divide stocks 100

/-- The batches handed to update_price by seller.py upload_prices:
list(divide(prices, 1000)). -/
def upload_prices_batches (prices : List Price) : Except Err (List (List Price)) :=
  divide prices 1000

/-- The batches handed to update_stocks by seller.py main:
list(divide(stocks, 100)). -/
def main_stock_batches (stocks : List Stock) : Except Err (List (List Stock)) :=
  divide stocks 100

/-- The batches handed to update_price by seller.py main:
list(divide(prices, 900)). -/
def main_price_batches (prices : List Price) : Except Err (List (List Price)) :=
  divide prices 900

/-- The price list built by the seller.py main pipeline: main fetches
offer_ids once, passes the list to create_stocks (which removes every matched
code from it in place), and then passes the same list object to
create_prices. -/
def main_prices (watch_remnants : List FeedRow) (offer_ids : List String) :
    Except Err (List Price) :=
  match create_stocks watch_remnants offer_ids with
  | .error e => .error e
  | .ok (_, offer_ids) => .ok (create_prices watch_remnants offer_ids).1

end Seller

namespace Market

/-- One warehouse line of a Yandex Market stock payload entry, as built by
market.py create_stocks. -/
structure StockItem where
  count : Int
  type : String
  updatedAt : String
deriving DecidableEq

/-- One element of the stocks payload built by market.py create_stocks. -/
structure Stock where
  sku : String
  warehouseId : String
  items : List StockItem
deriving DecidableEq

/-- The row loop of market.py create_stocks: identical id and count logic to
the seller version, different payload shape.  warehouse_id is the value main
passes (env.str, hence a string); date is the timestamp string computed once
before the loop from datetime.utcnow, taken here as an input. -/
def stocksLoop (warehouse_id : String) (date : String) :
    List FeedRow → List Stock → List String → Except Err (List Stock × List String)
  | [], stocks, offer_ids => .ok (stocks, offer_ids)
  | watch :: rest, stocks, offer_ids =>
    if watch.code ∈ offer_ids then
      let count := watch.quantity
      let stockE : Except Err Int :=
        if count = ">10" then .ok 100
        else if count = "1" then .ok 0
        else
          match pyInt watch.quantity with
          | some k => .ok k
          | none => .error .parseError
      match stockE with
      | .error e => .error e
      | .ok stock =>
        stocksLoop warehouse_id date rest
          (stocks ++ [⟨watch.code, warehouse_id, [⟨stock, "FIT", date⟩]⟩])
          (offer_ids.erase watch.code)
    else stocksLoop warehouse_id date rest stocks offer_ids

/-- market.py create_stocks: the row loop followed by the zero-count pass
over the remaining offer ids.  As for the seller version, the second
component is the final state of the mutated offer_ids argument. -/
def create_stocks (watch_remnants : List FeedRow) (offer_ids : List String)
    (warehouse_id : String) (date : String) :
    Except Err (List Stock × List String) :=
  match stocksLoop warehouse_id date watch_remnants [] offer_ids with
  | .error e => .error e
  | .ok (stocks, remaining) =>
    .ok (stocks ++ remaining.map (fun offer_id =>
      ⟨offer_id, warehouse_id, [⟨0, "FIT", date⟩]⟩), remaining)

/-- The nested price object of a Yandex Market price payload entry. -/
structure PriceValue where
  value : Int
  currencyId : String
deriving DecidableEq

/-- One element of the prices payload built by market.py create_prices. -/
structure Price where
  id : String
  price : PriceValue
deriving DecidableEq

/-- The loop of market.py create_prices: one payload entry per feed row whose
code is in offer_ids, with the price label normalized by the shared
price_conversion and parsed by int (ValueError when no digits remain); other
rows are skipped.  The loop never modifies offer_ids. -/
def pricesLoop (offer_ids : List String) : List FeedRow → Except Err (List Price)
  | [] => .ok []
  | watch :: rest =>
    if watch.code ∈ offer_ids then
      match pyInt (Seller.price_conversion watch.price) with
      | none => .error .parseError
      | some v =>
        match pricesLoop offer_ids rest with
        | .error e => .error e
        | .ok prices => .ok (⟨watch.code, ⟨v, "RUR"⟩⟩ :: prices)
    else pricesLoop offer_ids rest

/-- market.py create_prices.  The second component is the final state of the
offer_ids argument, which the function never mutates. -/
def create_prices (watch_remnants : List FeedRow) (offer_ids : List String) :
    Except Err (List Price × List String) :=
  match pricesLoop offer_ids watch_remnants with
  | .error e => .error e
  | .ok prices => .ok (prices, offer_ids)

/-- The offer object nested in a Yandex Market catalog entry, restricted to
the only field the fetcher reads. -/
structure Offer where
  shopSku : String
deriving DecidableEq

/-- One entry of an offer-mapping page. -/
structure OfferMappingEntry where
  offer : Offer
deriving DecidableEq

/-- The paging object of an offer-mapping page; an empty string models a
missing or empty nextPageToken (both are falsy in the source). -/
structure Paging where
  nextPageToken : String

/-- One page returned by the offer-mapping-entries endpoint, as read by
market.py get_offer_ids. -/
structure ProductPage where
  offerMappingEntries : List OfferMappingEntry
  paging : Paging

/-- The while loop of market.py get_offer_ids: fetch a page, extend the
accumulated entry list, move to paging.nextPageToken and stop once that token
is falsy.  fetch models get_product_list as a collaborator from the page
token to a page or an upstream error; the fuel bounds the number of
iterations and ok none models a run that never reaches the stop signal. -/
def offerIdsLoop (fetch : String → Except ε ProductPage) :
    Nat → String → List OfferMappingEntry → Except ε (Option (List OfferMappingEntry))
  | 0, _, _ => .ok none
  | fuel + 1, page_token, product_list =>
    match fetch page_token with
    | .error e => .error e
    | .ok page =>
      let product_list := product_list ++ page.offerMappingEntries
      if page.paging.nextPageToken = "" then .ok (some product_list)
      else offerIdsLoop fetch fuel page.paging.nextPageToken product_list

/-- market.py get_offer_ids: run the pagination loop from an empty token and
then extract offer.shopSku from every accumulated entry. -/
def get_offer_ids (fetch : String → Except ε ProductPage) (fuel : Nat) :
    Except ε (Option (List String)) :=
  match offerIdsLoop fetch fuel "" [] with
  | .error e => .error e
  | .ok none => .ok none
  | .ok (some product_list) =>
    .ok (some (product_list.map (fun p => p.offer.shopSku)))

/-- The batches handed to update_stocks by market.py upload_stocks and main:
list(divide(stocks, 2000)). -/
def upload_stocks_batches (stocks : List Stock) : Except Err (List (List Stock)) :=
  Seller.divide stocks 2000

/-- The batches handed to update_price by market.py upload_prices:
list(divide(prices, 500)). -/
def upload_prices_batches (prices : List Price) : Except Err (List (List Price)) :=
  Seller.divide prices 500

end Market

/-- Modelled from the spec: the Price Normalizer contract of section 4.2,
split the string at the first dot, take the left portion, and strip every
non-digit character from it.  leftOfFirstDot is the left portion of that
split. -/
def leftOfFirstDot : List Char → List Char
  | [] => []
  | c :: cs => if c = '.' then [] else c :: leftOfFirstDot cs

/-- Modelled from the spec: the full Price Normalizer contract of
section 4.2. -/
def priceNormalizerSpec (s : String) : String :=
  String.mk ((leftOfFirstDot s.toList).filter Char.isDigit)

/-- Modelled from the spec: the resolved-count rule of section 4.3: a
quantity label of ">10" resolves to 100, a label of "1" to 0, and any other
label is parsed as an integer, failing with a parse error when it is
non-numeric. -/
def resolvedCountSpec (quantityLabel : String) : Except Err Int :=
  if quantityLabel = ">10" then .ok 100
  else if quantityLabel = "1" then .ok 0
  else
    match pyInt quantityLabel with
    | some k => .ok k
    | none => .error .parseError

/-- Modelled from the spec: the matched pass of buildStockUpdates of
section 4.3: for each feed row whose code is present in offerIds, resolve
the count, emit the update and remove the code from offerIds so that later
feed rows and the leftover pass cannot reuse it; the result is the matched
updates in feed-row order together with the remaining offer ids. -/
def buildStockUpdatesGo : List FeedRow → List String →
    Except Err (List Seller.Stock × List String)
  | [], offerIds => .ok ([], offerIds)
  | row :: rows, offerIds =>
    if row.code ∈ offerIds then
      match resolvedCountSpec row.quantity with
      | .error e => .error e
      | .ok c =>
        match buildStockUpdatesGo rows (offerIds.erase row.code) with
        | .error e => .error e
        | .ok (updates, remaining) => .ok (⟨row.code, c⟩ :: updates, remaining)
    else buildStockUpdatesGo rows offerIds

/-- Modelled from the spec: buildStockUpdates of section 4.3: matched
updates in feed-row order, followed by a zero-count update for every offer
id remaining after the matched pass, in original offer-id order. -/
def buildStockUpdatesSpec (feedRows : List FeedRow) (offerIds : List String) :
    Except Err (List Seller.Stock × List String) :=
  match buildStockUpdatesGo feedRows offerIds with
  | .error e => .error e
  | .ok (matched, remaining) =>
    .ok (matched ++ remaining.map (fun i => ⟨i, 0⟩), remaining)

/-- An offer id is unmatched when no feed row carries its code. -/
def unmatched (rows : List FeedRow) (i : String) : Bool :=
  decide (i ∉ rows.map FeedRow.code)

/-- Modelled from the spec: the Offer Catalog Fetcher contract of
section 4.4 for the Ozon pagination strategy: starting from a cursor and the
items accumulated so far, a run either fails with the error of some page
fetch propagated unmodified, or accumulates the items of fetched pages page
by page until the running item total equals the server-reported total. -/
inductive PagedFetchS (fetch : String → Except ε Seller.ProductPage) :
    String → List Seller.Product → Except ε (List Seller.Product) → Prop where
  | fail : ∀ t acc e, fetch t = .error e → PagedFetchS fetch t acc (.error e)
  | done : ∀ t acc page, fetch t = .ok page →
      page.total = (acc ++ page.items).length →
      PagedFetchS fetch t acc (.ok (acc ++ page.items))
  | next : ∀ t acc page r, fetch t = .ok page →
      page.total ≠ (acc ++ page.items).length →
      PagedFetchS fetch page.last_id (acc ++ page.items) r →
      PagedFetchS fetch t acc r

/-- Modelled from the spec: the Offer Catalog Fetcher contract of
section 4.4 for the Yandex Market pagination strategy, which instead stops
on an empty continuation token. -/
inductive PagedFetchM (fetch : String → Except ε Market.ProductPage) :
    String → List Market.OfferMappingEntry →
    Except ε (List Market.OfferMappingEntry) → Prop where
  | fail : ∀ t acc e, fetch t = .error e → PagedFetchM fetch t acc (.error e)
  | done : ∀ t acc page, fetch t = .ok page →
      page.paging.nextPageToken = "" →
      PagedFetchM fetch t acc (.ok (acc ++ page.offerMappingEntries))
  | next : ∀ t acc page r, fetch t = .ok page →
      page.paging.nextPageToken ≠ "" →
      PagedFetchM fetch page.paging.nextPageToken
        (acc ++ page.offerMappingEntries) r →
      PagedFetchM fetch t acc r

/-! Helper lemmas. -/

namespace Seller

lemma chunksGo_join (n : Nat) : ∀ (fuel : Nat) (l : List α), l.length ≤ fuel →
    (chunksGo n fuel l).flatten = l := by
  intro fuel
  induction fuel with
  | zero =>
    intro l hl
    have : l = [] := List.length_eq_zero.mp (Nat.le_zero.mp hl)
    subst this
    rfl
  | succ fuel ih =>
    intro l hl
    match l with
    | [] => rfl
    | x :: xs =>
      have hd : (xs.drop n).length ≤ fuel := by
        simp only [List.length_drop]
        simp only [List.length_cons] at hl
        omega
      have hx : xs.drop n = (x :: xs).drop (n + 1) := rfl
      simp only [chunksGo, List.flatten_cons, ih (xs.drop n) hd]
      rw [hx, List.take_append_drop]

lemma chunksGo_eq_nil_iff (n : Nat) (fuel : Nat) (l : List α)
    (hl : l.length ≤ fuel) : chunksGo n fuel l = [] ↔ l = [] := by
  match fuel, l with
  | 0, l =>
    have : l = [] := List.length_eq_zero.mp (Nat.le_zero.mp hl)
    subst this
    simp [chunksGo]
  | fuel + 1, [] => simp [chunksGo]
  | fuel + 1, x :: xs => simp [chunksGo]

lemma chunksGo_length (n : Nat) : ∀ (fuel : Nat) (l : List α), l.length ≤ fuel →
    (chunksGo n fuel l).length = (l.length + n) / (n + 1) := by
  intro fuel
  induction fuel with
  | zero =>
    intro l hl
    have : l = [] := List.length_eq_zero.mp (Nat.le_zero.mp hl)
    subst this
    simp [chunksGo, Nat.div_eq_of_lt]
  | succ fuel ih =>
    intro l hl
    match l with
    | [] => simp [chunksGo, Nat.div_eq_of_lt]
    | x :: xs =>
      have hd : (xs.drop n).length ≤ fuel := by
        simp only [List.length_drop]
        simp only [List.length_cons] at hl
        omega
      have hrec := ih (xs.drop n) hd
      simp only [chunksGo, List.length_cons, List.length_drop] at hrec ⊢
      rcases le_or_lt xs.length n with hle | hlt
      · have h0 : xs.length - n = 0 := by omega
        rw [hrec, h0]
        have h1 : (xs.length + 1 + n) / (n + 1) = 1 :=
          Nat.div_eq_of_lt_le (by omega) (by omega)
        rw [h1, Nat.div_eq_of_lt (by omega)]
      · have h2 : xs.length - n + n = xs.length := by omega
        rw [hrec, h2]
        have h3 : xs.length + 1 + n = xs.length + (n + 1) := by omega
        rw [h3, Nat.add_div_right _ (by omega)]

lemma chunksGo_mem_length (n : Nat) : ∀ (fuel : Nat) (l : List α)
    (b : List α), b ∈ chunksGo n fuel l → 1 ≤ b.length ∧ b.length ≤ n + 1 := by
  intro fuel
  induction fuel with
  | zero => intro l b hb; simp [chunksGo] at hb
  | succ fuel ih =>
    intro l b hb
    match l with
    | [] => simp [chunksGo] at hb
    | x :: xs =>
      simp only [chunksGo, List.mem_cons] at hb
      rcases hb with hb | hb
      · subst hb
        simp only [List.length_take, List.length_cons]
        omega
      · exact ih (xs.drop n) b hb

lemma chunksGo_dropLast_length (n : Nat) : ∀ (fuel : Nat) (l : List α),
    l.length ≤ fuel → ∀ b ∈ (chunksGo n fuel l).dropLast, b.length = n + 1 := by
  intro fuel
  induction fuel with
  | zero => intro l hl b hb; simp [chunksGo] at hb
  | succ fuel ih =>
    intro l hl b hb
    match l with
    | [] => simp [chunksGo] at hb
    | x :: xs =>
      have hd : (xs.drop n).length ≤ fuel := by
        simp only [List.length_drop]
        simp only [List.length_cons] at hl
        omega
      simp only [chunksGo] at hb
      rcases hrest : chunksGo n fuel (xs.drop n) with _ | ⟨c, cs⟩
      · rw [hrest] at hb
        simp at hb
      · rw [hrest] at hb
        rw [List.dropLast_cons₂, List.mem_cons] at hb
        rcases hb with hb | hb
        · subst hb
          have hne : xs.drop n ≠ [] := by
            intro hnil
            rw [hnil] at hrest
            exact absurd ((chunksGo_eq_nil_iff n fuel [] (by simp)).mpr rfl)
              (by rw [hrest]; simp)
          have hlen : n < xs.length := by
            by_contra hcon
            exact hne (List.drop_eq_nil_of_le (by omega))
          simp only [List.length_take, List.length_cons]
          omega
        · have := ih (xs.drop n) hd b
          rw [hrest] at this
          exact this hb

end Seller

lemma takeWhile_ne_dot_eq_leftOfFirstDot (cs : List Char) :
    cs.takeWhile (fun c => c != '.') = leftOfFirstDot cs := by
  induction cs with
  | nil => rfl
  | cons c cs ih =>
    by_cases h : c = '.'
    · simp [List.takeWhile, leftOfFirstDot, h]
    · have hb : (c != '.') = true := by simp [bne_iff_ne, h]
      simp [List.takeWhile, leftOfFirstDot, h, ih, hb]



lemma stocksLoop_cons (row : FeedRow) (rows : List FeedRow)
    (acc : List Seller.Stock) (ids : List String) :
    Seller.stocksLoop (row :: rows) acc ids =
      if row.code ∈ ids then
        match resolvedCountSpec row.quantity with
        | .error e => .error e
        | .ok c =>
          Seller.stocksLoop rows (acc ++ [⟨row.code, c⟩]) (ids.erase row.code)
      else Seller.stocksLoop rows acc ids := rfl

lemma stocksLoop_eq_go : ∀ (rows : List FeedRow) (acc : List Seller.Stock)
    (ids : List String),
    Seller.stocksLoop rows acc ids =
      match buildStockUpdatesGo rows ids with
      | .error e => .error e
      | .ok (us, rem) => .ok (acc ++ us, rem) := by
  intro rows
  induction rows with
  | nil => intro acc ids; simp [Seller.stocksLoop, buildStockUpdatesGo]
  | cons row rows ih =>
    intro acc ids
    rw [stocksLoop_cons]
    by_cases hmem : row.code ∈ ids
    · rw [if_pos hmem]
      simp only [buildStockUpdatesGo, if_pos hmem]
      cases hq : resolvedCountSpec row.quantity with
      | error e => rfl
      | ok c =>
        dsimp only
        rw [ih]
        cases hgo : buildStockUpdatesGo rows (ids.erase row.code) with
        | error e => rfl
        | ok p =>
          obtain ⟨us, rem⟩ := p
          dsimp only
          simp
    · rw [if_neg hmem]
      simp only [buildStockUpdatesGo, if_neg hmem]
      exact ih acc ids

lemma buildStockUpdatesGo_perm : ∀ (rows : List FeedRow) (ids : List String)
    (us : List Seller.Stock) (rem : List String),
    buildStockUpdatesGo rows ids = .ok (us, rem) →
    (us.map Seller.Stock.offer_id ++ rem).Perm ids := by
  intro rows
  induction rows with
  | nil =>
    intro ids us rem h
    simp only [buildStockUpdatesGo] at h
    cases h
    simp
  | cons row rows ih =>
    intro ids us rem h
    simp only [buildStockUpdatesGo] at h
    by_cases hmem : row.code ∈ ids
    · rw [if_pos hmem] at h
      cases hq : resolvedCountSpec row.quantity with
      | error e => rw [hq] at h; cases h
      | ok c =>
        rw [hq] at h
        cases hgo : buildStockUpdatesGo rows (ids.erase row.code) with
        | error e => rw [hgo] at h; cases h
        | ok p =>
          obtain ⟨us2, rem2⟩ := p
          rw [hgo] at h
          cases h
          have hperm := ih _ _ _ hgo
          simp only [List.map_cons, List.cons_append]
          exact (hperm.cons row.code).trans (List.perm_cons_erase hmem).symm
    · rw [if_neg hmem] at h
      exact ih ids us rem h

lemma buildStockUpdatesGo_remaining : ∀ (rows : List FeedRow) (ids : List String)
    (us : List Seller.Stock) (rem : List String), ids.Nodup →
    buildStockUpdatesGo rows ids = .ok (us, rem) →
    rem = ids.filter (unmatched rows) := by
  intro rows
  induction rows with
  | nil =>
    intro ids us rem hnd h
    simp only [buildStockUpdatesGo] at h
    cases h
    have hu : unmatched ([] : List FeedRow) = fun _ : String => true := by
      funext i
      simp [unmatched]
    rw [hu, List.filter_true]
  | cons row rows ih =>
    intro ids us rem hnd h
    simp only [buildStockUpdatesGo] at h
    by_cases hmem : row.code ∈ ids
    · rw [if_pos hmem] at h
      cases hq : resolvedCountSpec row.quantity with
      | error e => rw [hq] at h; cases h
      | ok c =>
        rw [hq] at h
        cases hgo : buildStockUpdatesGo rows (ids.erase row.code) with
        | error e => rw [hgo] at h; cases h
        | ok p =>
          obtain ⟨us2, rem2⟩ := p
          rw [hgo] at h
          cases h
          have hrec := ih (ids.erase row.code) _ _ (hnd.erase row.code) hgo
          rw [hrec, List.Nodup.erase_eq_filter hnd, List.filter_filter]
          apply List.filter_congr
          intro x hx
          by_cases hxr : x = row.code
          · simp [unmatched, hxr, List.mem_cons]
          · by_cases hxm : x ∈ rows.map FeedRow.code
            · simp [unmatched, hxr, hxm, List.mem_cons]
            · simp [unmatched, hxr, hxm, List.mem_cons]
    · rw [if_neg hmem] at h
      have hrec := ih ids us rem hnd h
      rw [hrec]
      apply List.filter_congr
      intro x hx
      have hne : x ≠ row.code := fun he => hmem (he ▸ hx)
      simp [unmatched, List.mem_cons, hne]

lemma market_stocksLoop_cons (wh date : String) (row : FeedRow)
    (rows : List FeedRow) (acc : List Market.Stock) (ids : List String) :
    Market.stocksLoop wh date (row :: rows) acc ids =
      if row.code ∈ ids then
        match resolvedCountSpec row.quantity with
        | .error e => .error e
        | .ok c =>
          Market.stocksLoop wh date rows
            (acc ++ [⟨row.code, wh, [⟨c, "FIT", date⟩]⟩]) (ids.erase row.code)
      else Market.stocksLoop wh date rows acc ids := rfl

lemma market_stocksLoop_eq_go (wh date : String) : ∀ (rows : List FeedRow)
    (acc : List Market.Stock) (ids : List String) (st : List Market.Stock)
    (rem : List String),
    Market.stocksLoop wh date rows acc ids = .ok (st, rem) →
    ∃ us, buildStockUpdatesGo rows ids = .ok (us, rem) ∧
      st.map Market.Stock.sku =
        acc.map Market.Stock.sku ++ us.map Seller.Stock.offer_id := by
  intro rows
  induction rows with
  | nil =>
    intro acc ids st rem h
    simp only [Market.stocksLoop] at h
    cases h
    exact ⟨[], rfl, by simp⟩
  | cons row rows ih =>
    intro acc ids st rem h
    rw [market_stocksLoop_cons] at h
    by_cases hmem : row.code ∈ ids
    · rw [if_pos hmem] at h
      cases hq : resolvedCountSpec row.quantity with
      | error e => rw [hq] at h; cases h
      | ok c =>
        rw [hq] at h
        dsimp only at h
        obtain ⟨us2, hgo, hmap⟩ := ih _ _ _ _ h
        refine ⟨⟨row.code, c⟩ :: us2, ?_, ?_⟩
        · simp only [buildStockUpdatesGo, if_pos hmem, hq, hgo]
        · rw [hmap]
          simp
    · rw [if_neg hmem] at h
      obtain ⟨us2, hgo, hmap⟩ := ih _ _ _ _ h
      exact ⟨us2, by simp only [buildStockUpdatesGo, if_neg hmem, hgo], hmap⟩

lemma pricesLoop_eq_filter_map (ids : List String) : ∀ (rows : List FeedRow),
    Seller.pricesLoop ids rows =
      (rows.filter (fun w => decide (w.code ∈ ids))).map (fun w =>
        ⟨"UNKNOWN", "RUB", w.code, "0", Seller.price_conversion w.price⟩) := by
  intro rows
  induction rows with
  | nil => rfl
  | cons w rows ih =>
    by_cases hmem : w.code ∈ ids
    · simp [Seller.pricesLoop, hmem, ih, List.filter_cons]
    · simp [Seller.pricesLoop, hmem, ih, List.filter_cons]

lemma market_pricesLoop_eq_filter_mapM (ids : List String) :
    ∀ (rows : List FeedRow),
    Market.pricesLoop ids rows =
      (rows.filter (fun w => decide (w.code ∈ ids))).mapM (fun w =>
        match pyInt (Seller.price_conversion w.price) with
        | some v => Except.ok (⟨w.code, ⟨v, "RUR"⟩⟩ : Market.Price)
        | none => Except.error Err.parseError) := by
  intro rows
  induction rows with
  | nil => rfl
  | cons w rows ih =>
    by_cases hmem : w.code ∈ ids
    · simp only [Market.pricesLoop, if_pos hmem, List.filter_cons, decide_eq_true hmem,
        if_pos, List.mapM_cons, ih]
      cases hp : pyInt (Seller.price_conversion w.price) with
      | none =>
        cases hrest : (rows.filter (fun w => decide (w.code ∈ ids))).mapM (fun w =>
          match pyInt (Seller.price_conversion w.price) with
          | some v => Except.ok (⟨w.code, ⟨v, "RUR"⟩⟩ : Market.Price)
          | none => Except.error Err.parseError) with
        | error e => rfl
        | ok ps => rfl
      | some v =>
        cases hrest : (rows.filter (fun w => decide (w.code ∈ ids))).mapM (fun w =>
          match pyInt (Seller.price_conversion w.price) with
          | some v => Except.ok (⟨w.code, ⟨v, "RUR"⟩⟩ : Market.Price)
          | none => Except.error Err.parseError) with
        | error e => rfl
        | ok ps => rfl
    · simp only [Market.pricesLoop, if_neg hmem, List.filter_cons]
      have hd : decide (w.code ∈ ids) = false := by simp [hmem]
      rw [hd]
      simp only [Bool.false_eq_true, if_false]
      exact ih

lemma pricesLoop_of_disjoint (ids : List String) (rows : List FeedRow)
    (h : ∀ w ∈ rows, w.code ∉ ids) : Seller.pricesLoop ids rows = [] := by
  rw [pricesLoop_eq_filter_map]
  have : rows.filter (fun w => decide (w.code ∈ ids)) = [] := by
    rw [List.filter_eq_nil_iff]
    intro w hw
    simp [h w hw]
  rw [this]
  rfl

lemma pricesLoop_unmatched_nil (ids : List String) (rows : List FeedRow) :
    Seller.pricesLoop (ids.filter (unmatched rows)) rows = [] := by
  apply pricesLoop_of_disjoint
  intro w hw hmem
  rw [List.mem_filter] at hmem
  have := hmem.2
  simp only [unmatched, decide_eq_true_eq] at this
  exact this (List.mem_map_of_mem FeedRow.code hw)

lemma offerIdsLoopS_error (fetch : String → Except ε Seller.ProductPage) :
    ∀ (fuel : Nat) (t : String) (acc : List Seller.Product) (e : ε),
    Seller.offerIdsLoop fetch fuel t acc = .error e →
    PagedFetchS fetch t acc (.error e) ∧ ∃ t2, fetch t2 = .error e := by
  intro fuel
  induction fuel with
  | zero =>
    intro t acc e h
    simp [Seller.offerIdsLoop] at h
  | succ fuel ih =>
    intro t acc e h
    simp only [Seller.offerIdsLoop] at h
    cases hf : fetch t with
    | error e2 =>
      rw [hf] at h
      cases h
      exact ⟨.fail _ _ _ hf, t, hf⟩
    | ok page =>
      rw [hf] at h
      dsimp only at h
      by_cases hterm : page.total = (acc ++ page.items).length
      · rw [if_pos hterm] at h
        simp at h
      · rw [if_neg hterm] at h
        obtain ⟨hspec, t2, hfe⟩ := ih _ _ _ h
        exact ⟨.next t acc page _ hf hterm hspec, t2, hfe⟩

lemma offerIdsLoopS_ok (fetch : String → Except ε Seller.ProductPage) :
    ∀ (fuel : Nat) (t : String) (acc : List Seller.Product)
    (l : List Seller.Product),
    Seller.offerIdsLoop fetch fuel t acc = .ok (some l) →
    PagedFetchS fetch t acc (.ok l) := by
  intro fuel
  induction fuel with
  | zero =>
    intro t acc l h
    simp [Seller.offerIdsLoop] at h
  | succ fuel ih =>
    intro t acc l h
    simp only [Seller.offerIdsLoop] at h
    cases hf : fetch t with
    | error e2 =>
      rw [hf] at h
      cases h
    | ok page =>
      rw [hf] at h
      dsimp only at h
      by_cases hterm : page.total = (acc ++ page.items).length
      · rw [if_pos hterm] at h
        cases h
        exact .done _ _ _ hf hterm
      · rw [if_neg hterm] at h
        exact .next t acc page _ hf hterm (ih _ _ _ h)

lemma offerIdsLoopM_error (fetch : String → Except ε Market.ProductPage) :
    ∀ (fuel : Nat) (t : String) (acc : List Market.OfferMappingEntry) (e : ε),
    Market.offerIdsLoop fetch fuel t acc = .error e →
    PagedFetchM fetch t acc (.error e) ∧ ∃ t2, fetch t2 = .error e := by
  intro fuel
  induction fuel with
  | zero =>
    intro t acc e h
    simp [Market.offerIdsLoop] at h
  | succ fuel ih =>
    intro t acc e h
    simp only [Market.offerIdsLoop] at h
    cases hf : fetch t with
    | error e2 =>
      rw [hf] at h
      cases h
      exact ⟨.fail _ _ _ hf, t, hf⟩
    | ok page =>
      rw [hf] at h
      dsimp only at h
      by_cases hterm : page.paging.nextPageToken = ""
      · rw [if_pos hterm] at h
        simp at h
      · rw [if_neg hterm] at h
        obtain ⟨hspec, t2, hfe⟩ := ih _ _ _ h
        exact ⟨.next t acc page _ hf hterm hspec, t2, hfe⟩

lemma offerIdsLoopM_ok (fetch : String → Except ε Market.ProductPage) :
    ∀ (fuel : Nat) (t : String) (acc : List Market.OfferMappingEntry)
    (l : List Market.OfferMappingEntry),
    Market.offerIdsLoop fetch fuel t acc = .ok (some l) →
    PagedFetchM fetch t acc (.ok l) := by
  intro fuel
  induction fuel with
  | zero =>
    intro t acc l h
    simp [Market.offerIdsLoop] at h
  | succ fuel ih =>
    intro t acc l h
    simp only [Market.offerIdsLoop] at h
    cases hf : fetch t with
    | error e2 =>
      rw [hf] at h
      cases h
    | ok page =>
      rw [hf] at h
      dsimp only at h
      by_cases hterm : page.paging.nextPageToken = ""
      · rw [if_pos hterm] at h
        cases h
        exact .done _ _ _ hf hterm
      · rw [if_neg hterm] at h
        exact .next t acc page _ hf hterm (ih _ _ _ h)

lemma create_stocks_ok_remaining (rows : List FeedRow) (ids : List String)
    (st : List Seller.Stock) (rem : List String) (hnd : ids.Nodup)
    (h : Seller.create_stocks rows ids = .ok (st, rem)) :
    rem = ids.filter (unmatched rows) := by
  unfold Seller.create_stocks at h
  rw [stocksLoop_eq_go] at h
  cases hgo : buildStockUpdatesGo rows ids with
  | error e => rw [hgo] at h; cases h
  | ok p =>
    obtain ⟨us, rem2⟩ := p
    rw [hgo] at h
    dsimp only at h
    cases h
    exact buildStockUpdatesGo_remaining rows ids us _ hnd hgo

lemma market_create_stocks_ok_remaining (wh date : String) (rows : List FeedRow)
    (ids : List String) (st : List Market.Stock) (rem : List String)
    (hnd : ids.Nodup)
    (h : Market.create_stocks rows ids wh date = .ok (st, rem)) :
    rem = ids.filter (unmatched rows) := by
  unfold Market.create_stocks at h
  cases hml : Market.stocksLoop wh date rows [] ids with
  | error e => rw [hml] at h; cases h
  | ok p =>
    obtain ⟨st0, rem2⟩ := p
    rw [hml] at h
    dsimp only at h
    cases h
    obtain ⟨us, hgo, hmap⟩ := market_stocksLoop_eq_go wh date rows [] ids st0 _ hml
    exact buildStockUpdatesGo_remaining rows ids us _ hnd hgo

lemma main_prices_of_create_stocks (rows : List FeedRow) (ids : List String)
    (st : List Seller.Stock) (rem : List String)
    (h : Seller.create_stocks rows ids = .ok (st, rem)) :
    Seller.main_prices rows ids = .ok (Seller.create_prices rows rem).1 := by
  unfold Seller.main_prices
  rw [h]

lemma map_offer_id_zero (rem : List String) :
    (rem.map (fun i => (⟨i, 0⟩ : Seller.Stock))).map Seller.Stock.offer_id = rem := by
  rw [List.map_map]
  exact List.map_id rem

lemma map_sku_zero (wh date : String) (rem : List String) :
    (rem.map (fun i => (⟨i, wh, [⟨0, "FIT", date⟩]⟩ : Market.Stock))).map
      Market.Stock.sku = rem := by
  rw [List.map_map]
  exact List.map_id rem

/-! Claim theorems. -/

/-- Claim C1: for every feed-row list and offer-id list, seller.py
create_stocks coincides with the buildStockUpdates contract of spec
section 4.3: for each feed row whose code (already converted to string) is
present in the offer-id list it emits a stock update whose count is 100 for
the label ">10", 0 for the label "1", and the integer parse of the label
otherwise (failing with a parse error when the label is non-numeric),
removing the matched id; afterwards it emits a zero-count update for every
offer id left unmatched, listing matched updates in feed-row order followed
by leftover updates in original offer-id order. -/
theorem create_stocks_matches_spec :
    ∀ (rows : List FeedRow) (ids : List String),
      Seller.create_stocks rows ids = buildStockUpdatesSpec rows ids := by
  intro rows ids
  unfold Seller.create_stocks buildStockUpdatesSpec
  rw [stocksLoop_eq_go]
  cases buildStockUpdatesGo rows ids with
  | error e => rfl
  | ok p =>
    obtain ⟨us, rem⟩ := p
    simp

/-- Claim C2: for every feed-row list and duplicate-free offer-id list, the
offer ids of the stock updates returned by create_stocks (both the Ozon and
the Yandex Market version) are a permutation of the original offer-id list:
every fetched offer id appears in exactly one stock update, with no
duplicates and no omissions. -/
theorem stock_updates_cover_offer_ids :
    ∀ (rows : List FeedRow) (ids : List String), ids.Nodup →
      (∀ st rem, Seller.create_stocks rows ids = .ok (st, rem) →
        (st.map Seller.Stock.offer_id).Perm ids) ∧
      (∀ wh date st rem, Market.create_stocks rows ids wh date = .ok (st, rem) →
        (st.map Market.Stock.sku).Perm ids) := by
  intro rows ids hnd
  constructor
  · intro st rem h
    unfold Seller.create_stocks at h
    rw [stocksLoop_eq_go] at h
    cases hgo : buildStockUpdatesGo rows ids with
    | error e => rw [hgo] at h; cases h
    | ok p =>
      obtain ⟨us, rem2⟩ := p
      rw [hgo] at h
      dsimp only at h
      cases h
      have hperm := buildStockUpdatesGo_perm rows ids us _ hgo
      rw [List.nil_append, List.map_append, map_offer_id_zero]
      exact hperm
  · intro wh date st rem h
    unfold Market.create_stocks at h
    cases hml : Market.stocksLoop wh date rows [] ids with
    | error e => rw [hml] at h; cases h
    | ok p =>
      obtain ⟨st0, rem2⟩ := p
      rw [hml] at h
      dsimp only at h
      cases h
      obtain ⟨us, hgo, hmap⟩ := market_stocksLoop_eq_go wh date rows [] ids st0 _ hml
      have hperm := buildStockUpdatesGo_perm rows ids us _ hgo
      simp only [List.map_nil, List.nil_append] at hmap
      rw [List.map_append, map_sku_zero, hmap]
      exact hperm

/-- Witness for stock_updates_cover_offer_ids at a concrete input: one feed
row with code a and quantity 1, offer ids a and b. -/
theorem stock_updates_cover_offer_ids_witness :
    ((([⟨"a", 0⟩, ⟨"b", 0⟩] : List Seller.Stock).map
      Seller.Stock.offer_id).Perm ["a", "b"]) ∧
    ((([⟨"a", "w", [⟨0, "FIT", "d"⟩]⟩, ⟨"b", "w", [⟨0, "FIT", "d"⟩]⟩] :
      List Market.Stock).map Market.Stock.sku).Perm ["a", "b"]) := by
  constructor
  · exact (stock_updates_cover_offer_ids [⟨"a", "1", "x"⟩] ["a", "b"]
      (by decide)).1 _ _ rfl
  · exact (stock_updates_cover_offer_ids [⟨"a", "1", "x"⟩] ["a", "b"]
      (by decide)).2 "w" "d" _ _ rfl

/-- Claim C4: price_conversion returns the input split at the first dot,
left portion kept, with every non-digit removed; the spec examples evaluate
as stated, including the retained digits after a comma separator. -/
theorem price_conversion_normalizes :
    Seller.price_conversion "5\x27990.00 руб." = "5990" ∧
    Seller.price_conversion "550.00 руб." = "550" ∧
    Seller.price_conversion "5\x27990,00 руб." = "599000" ∧
    ∀ s, Seller.price_conversion s = priceNormalizerSpec s := by
  refine ⟨rfl, rfl, rfl, ?_⟩
  intro s
  unfold Seller.price_conversion priceNormalizerSpec
  rw [takeWhile_ne_dot_eq_leftOfFirstDot]

/-- Claim C5: for every list S, every positive N and every chunk list that
divide(S, N) yields, the chunks concatenate back to S, every chunk has
between 1 and N elements, every chunk except the last has exactly N
elements, and an empty S yields zero chunks. -/
theorem divide_chunks_exactly :
    ∀ (α : Type) (S : List α) (N : Int) (bs : List (List α)), 0 < N →
      Seller.divide S N = .ok bs →
      bs.flatten = S ∧
      (∀ b ∈ bs, 1 ≤ b.length ∧ b.length ≤ N.toNat) ∧
      (∀ b ∈ bs.dropLast, b.length = N.toNat) ∧
      (S = [] → bs = []) := by
  intro α S N bs hN h
  have hne : ¬(N = 0) := by omega
  have hnneg : ¬(N < 0) := by omega
  unfold Seller.divide at h
  rw [if_neg hne, if_neg hnneg] at h
  cases h
  simp only [Seller.chunks]
  have hto : N.toNat - 1 + 1 = N.toNat := by omega
  refine ⟨Seller.chunksGo_join _ _ _ (le_refl _), ?_, ?_, ?_⟩
  · intro b hb
    have := Seller.chunksGo_mem_length (N.toNat - 1) S.length S b hb
    omega
  · intro b hb
    have := Seller.chunksGo_dropLast_length (N.toNat - 1) S.length S
      (le_refl _) b hb
    omega
  · intro hS
    subst hS
    rfl

/-- Witness for divide_chunks_exactly: divide([1, 2, 3], 2) yields the
chunks [1, 2] and [3]. -/
theorem divide_chunks_exactly_witness :
    ([[1, 2], [3]] : List (List Nat)).flatten = [1, 2, 3] ∧
    (∀ b ∈ ([[1, 2], [3]] : List (List Nat)),
      1 ≤ b.length ∧ b.length ≤ (2 : Int).toNat) ∧
    (∀ b ∈ ([[1, 2], [3]] : List (List Nat)).dropLast,
      b.length = (2 : Int).toNat) ∧
    ([1, 2, 3] = ([] : List Nat) → ([[1, 2], [3]] : List (List Nat)) = []) :=
  divide_chunks_exactly Nat [1, 2, 3] 2 [[1, 2], [3]] (by decide) rfl

/-- Claim C6 (amended): divide fails with InvalidArgument exactly when
N = 0; for negative N the underlying range is empty, so divide yields zero
chunks without failing. -/
theorem divide_nonpositive :
    ∀ (α : Type) (S : List α) (N : Int), N ≤ 0 →
      (N = 0 → Seller.divide S N = .error .invalidArgument) ∧
      (N < 0 → Seller.divide S N = .ok []) := by
  intro α S N hN
  constructor
  · intro h0
    subst h0
    rfl
  · intro hneg
    unfold Seller.divide
    rw [if_neg (by omega), if_pos hneg]

/-- Witness for divide_nonpositive: divide([3], 0) raises. -/
theorem divide_nonpositive_witness :
    Seller.divide ([3] : List Nat) 0 = .error .invalidArgument :=
  (divide_nonpositive Nat [3] 0 (by decide)).1 rfl

/-- Counterexample to claim C6 as stated: at the concrete input N = -1 the
chunker does not fail with InvalidArgument; it yields zero chunks. -/
theorem divide_negative_yields_no_chunks :
    Seller.divide ([1] : List Nat) (-1) = .ok [] := rfl

/-- Claim C10 (amended): create_stocks consumes the caller offer-id list in
place: on a duplicate-free list, after a completed call (either marketplace
version) the final state of the list consists of exactly the offer ids
carried by no feed row, in their original relative order, every matched id
removed; the seller.py main pipeline then hands this leftover list to
create_prices.  On lists with duplicates only the first occurrence of a
matched code is removed, so a matched id can survive. -/
theorem create_stocks_removes_matched :
    ∀ (rows : List FeedRow) (ids : List String), ids.Nodup →
      (∀ st rem, Seller.create_stocks rows ids = .ok (st, rem) →
        rem = ids.filter (unmatched rows) ∧
        Seller.main_prices rows ids = .ok (Seller.create_prices rows rem).1) ∧
      (∀ wh date st rem, Market.create_stocks rows ids wh date = .ok (st, rem) →
        rem = ids.filter (unmatched rows)) := by
  intro rows ids hnd
  constructor
  · intro st rem h
    exact ⟨create_stocks_ok_remaining rows ids st rem hnd h,
      main_prices_of_create_stocks rows ids st rem h⟩
  · intro wh date st rem h
    exact market_create_stocks_ok_remaining wh date rows ids st rem hnd h

/-- Witness for create_stocks_removes_matched: one feed row with code a,
offer ids a and b; b is left over and the main pipeline prices from it. -/
theorem create_stocks_removes_matched_witness :
    (["b"] = List.filter (unmatched [⟨"a", "1", "x"⟩]) ["a", "b"] ∧
      Seller.main_prices [⟨"a", "1", "x"⟩] ["a", "b"] =
        .ok (Seller.create_prices [⟨"a", "1", "x"⟩] ["b"]).1) ∧
    ["b"] = List.filter (unmatched [⟨"a", "1", "x"⟩]) ["a", "b"] := by
  constructor
  · exact (create_stocks_removes_matched [⟨"a", "1", "x"⟩] ["a", "b"]
      (by decide)).1 _ _ rfl
  · exact (create_stocks_removes_matched [⟨"a", "1", "x"⟩] ["a", "b"]
      (by decide)).2 "w" "d" _ _ rfl

/-- Counterexample to claim C10 as stated: on the duplicated offer-id list
with a twice, matched by the single feed row of code a, the completed call
removes only the first occurrence and leaves the list as a singleton a, even
though that id was matched by a feed row — so the post-state is not the list
of unmatched ids, which here is empty. -/
theorem create_stocks_duplicate_id_survives :
    Seller.create_stocks [⟨"a", "1", "x"⟩] ["a", "a"] =
      .ok ([⟨"a", 0⟩, ⟨"a", 0⟩], ["a"]) ∧
    List.filter (unmatched [⟨"a", "1", "x"⟩]) ["a", "a"] = [] ∧
    decide ((["a"] : List String) ≠ []) = true :=
  ⟨rfl, rfl, rfl⟩

/-- Counterexample to claim C3 as stated: in the seller.py main pipeline the
price build receives the offer-id list already consumed in place by the
stock build, so with one feed row matching the single fetched offer id the
pipeline yields no price update, while a price build on the original
fetched set yields one. -/
theorem main_prices_affected_by_stock_build :
    Seller.main_prices [⟨"69791", ">10", "550.00 руб."⟩] ["69791"] = .ok [] ∧
    (Seller.create_prices [⟨"69791", ">10", "550.00 руб."⟩] ["69791"]).1 =
      [⟨"UNKNOWN", "RUB", "69791", "0", "550"⟩] ∧
    decide (([] : List Seller.Price) ≠
      [⟨"UNKNOWN", "RUB", "69791", "0", "550"⟩]) = true :=
  ⟨rfl, rfl, rfl⟩

/-- Claim C3 (amended): the seller.py stock build consumes the fetched
offer-id list itself, not a fresh copy, so the price build of step 3
operates on the leftover unmatched ids; on a duplicate-free fetched list
every feed row carrying a fetched id was matched during the stock build, so
the pipeline price build emits no price updates at all.  The market.py
pipeline is unaffected only because its price step refetches its own
offer-id list. -/
theorem main_price_build_sees_consumed_ids :
    ∀ (rows : List FeedRow) (ids : List String), ids.Nodup →
      ∀ st rem, Seller.create_stocks rows ids = .ok (st, rem) →
        Seller.main_prices rows ids =
          .ok (Seller.create_prices rows (ids.filter (unmatched rows))).1 ∧
        Seller.main_prices rows ids = .ok [] := by
  intro rows ids hnd st rem h
  have hrem := create_stocks_ok_remaining rows ids st rem hnd h
  have hmain := main_prices_of_create_stocks rows ids st rem h
  rw [hrem] at hmain
  refine ⟨hmain, ?_⟩
  rw [hmain]
  unfold Seller.create_prices
  rw [pricesLoop_unmatched_nil]

/-- Witness for main_price_build_sees_consumed_ids at a concrete input. -/
theorem main_price_build_sees_consumed_ids_witness :
    Seller.main_prices [⟨"a", "1", "x"⟩] ["a"] =
      .ok (Seller.create_prices [⟨"a", "1", "x"⟩]
        (List.filter (unmatched [⟨"a", "1", "x"⟩]) ["a"])).1 ∧
    Seller.main_prices [⟨"a", "1", "x"⟩] ["a"] = .ok [] :=
  main_price_build_sees_consumed_ids [⟨"a", "1", "x"⟩] ["a"] (by decide)
    _ _ rfl

/-- Claim C7 (amended): the orchestrators chunk updates at fixed ceilings —
Ozon stocks at 100 both in upload_stocks and in main, Ozon prices at 900 in
main but at 1000 in the upload_prices helper, Yandex Market stocks at 2000
and prices at 500 — and every chunked call site passes exactly
ceil(n / limit) batches to the update sink, in input order. -/
theorem upload_batch_limits :
    ∀ (ss : List Seller.Stock) (ps : List Seller.Price)
      (ms : List Market.Stock) (mp : List Market.Price),
      Seller.upload_stocks_batches ss = .ok (Seller.chunks 99 ss) ∧
      Seller.main_stock_batches ss = .ok (Seller.chunks 99 ss) ∧
      (Seller.chunks 99 ss).length = (ss.length + 99) / 100 ∧
      (Seller.chunks 99 ss).flatten = ss ∧
      Seller.main_price_batches ps = .ok (Seller.chunks 899 ps) ∧
      (Seller.chunks 899 ps).length = (ps.length + 899) / 900 ∧
      (Seller.chunks 899 ps).flatten = ps ∧
      Seller.upload_prices_batches ps = .ok (Seller.chunks 999 ps) ∧
      (Seller.chunks 999 ps).length = (ps.length + 999) / 1000 ∧
      (Seller.chunks 999 ps).flatten = ps ∧
      Market.upload_stocks_batches ms = .ok (Seller.chunks 1999 ms) ∧
      (Seller.chunks 1999 ms).length = (ms.length + 1999) / 2000 ∧
      (Seller.chunks 1999 ms).flatten = ms ∧
      Market.upload_prices_batches mp = .ok (Seller.chunks 499 mp) ∧
      (Seller.chunks 499 mp).length = (mp.length + 499) / 500 ∧
      (Seller.chunks 499 mp).flatten = mp := by
  intro ss ps ms mp
  refine ⟨rfl, rfl, ?_, ?_, rfl, ?_, ?_, rfl, ?_, ?_, rfl, ?_, ?_, rfl, ?_, ?_⟩
  all_goals
    first
    | exact Seller.chunksGo_length _ _ _ (le_refl _)
    | exact Seller.chunksGo_join _ _ _ (le_refl _)

set_option maxRecDepth 4000 in
/-- Counterexample to claim C7 as stated: seller.py upload_prices chunks
prices at 1000, not 900: a list of 901 price updates is passed to the sink
in a single batch, while a 900 ceiling would require ceil(901/900) = 2
calls. -/
theorem upload_prices_batches_901 :
    Seller.upload_prices_batches
        (List.replicate 901 ⟨"UNKNOWN", "RUB", "0", "0", "0"⟩) =
      .ok (Seller.chunks 999 (List.replicate 901
        (⟨"UNKNOWN", "RUB", "0", "0", "0"⟩ : Seller.Price))) ∧
    (Seller.chunks 999 (List.replicate 901
      (⟨"UNKNOWN", "RUB", "0", "0", "0"⟩ : Seller.Price))).length = 1 ∧
    ((901 : Nat) + 899) / 900 = 2 := by
  refine ⟨rfl, ?_, by norm_num⟩
  have h1 : (Seller.chunks 999 (List.replicate 901
      (⟨"UNKNOWN", "RUB", "0", "0", "0"⟩ : Seller.Price))).length =
      ((List.replicate 901
        (⟨"UNKNOWN", "RUB", "0", "0", "0"⟩ : Seller.Price)).length + 999) / 1000 :=
    Seller.chunksGo_length _ _ _ (le_refl _)
  rw [h1, List.length_replicate]

/-- Claim C8 (amended): both create_prices builders emit exactly one price
update per feed row whose code is in the offer-id list, in feed order,
silently skipping non-matching rows and leaving the offer-id list
untouched; the Ozon builder keeps the normalizer output as a price string
with currency_code RUB, while the Yandex Market builder parses it to an
integer (failing when no digits remain) with currencyId RUR. -/
theorem create_prices_matched_rows :
    ∀ (rows : List FeedRow) (ids : List String),
      Seller.create_prices rows ids =
        ((rows.filter (fun w => decide (w.code ∈ ids))).map (fun w =>
          ⟨"UNKNOWN", "RUB", w.code, "0", Seller.price_conversion w.price⟩),
          ids) ∧
      Market.create_prices rows ids =
        (match (rows.filter (fun w => decide (w.code ∈ ids))).mapM (fun w =>
            match pyInt (Seller.price_conversion w.price) with
            | some v => Except.ok (⟨w.code, ⟨v, "RUR"⟩⟩ : Market.Price)
            | none => Except.error Err.parseError) with
        | .error e => .error e
        | .ok prices => .ok (prices, ids)) := by
  intro rows ids
  constructor
  · unfold Seller.create_prices
    rw [pricesLoop_eq_filter_map]
  · unfold Market.create_prices
    rw [market_pricesLoop_eq_filter_mapM]

/-- Counterexample to claim C8 as stated: the Yandex Market price payload
carries currencyId RUR, not the fixed currency RUB the claim states. -/
theorem market_price_currency_is_RUR :
    Market.create_prices [⟨"69791", ">10", "550.00 руб."⟩] ["69791", "70000"] =
      .ok ([⟨"69791", ⟨550, "RUR"⟩⟩], ["69791", "70000"]) ∧
    decide (("RUR" : String) ≠ "RUB") = true :=
  ⟨rfl, rfl⟩

/-- Claim C9: both Offer Catalog Fetchers accumulate items page by page
until the target-specific termination signal (running item total equal to
the server-reported total for Ozon; empty continuation token for Yandex
Market) and return the offer identifiers of every accumulated item; a
failing page fetch makes the whole fetch fail with the collaborator error
propagated unmodified and no accumulated result returned. -/
theorem get_offer_ids_paginates :
    ∀ (ε : Type) (fetchS : String → Except ε Seller.ProductPage)
      (fetchM : String → Except ε Market.ProductPage) (fuel : Nat),
      (∀ e, Seller.get_offer_ids fetchS fuel = .error e →
        PagedFetchS fetchS "" [] (.error e) ∧ ∃ t, fetchS t = .error e) ∧
      (∀ ids, Seller.get_offer_ids fetchS fuel = .ok (some ids) →
        ∃ prods, PagedFetchS fetchS "" [] (.ok prods) ∧
          ids = prods.map Seller.Product.offer_id) ∧
      (∀ e, Market.get_offer_ids fetchM fuel = .error e →
        PagedFetchM fetchM "" [] (.error e) ∧ ∃ t, fetchM t = .error e) ∧
      (∀ ids, Market.get_offer_ids fetchM fuel = .ok (some ids) →
        ∃ entries, PagedFetchM fetchM "" [] (.ok entries) ∧
          ids = entries.map (fun p => p.offer.shopSku)) := by
  intro ε fetchS fetchM fuel
  refine ⟨?_, ?_, ?_, ?_⟩
  · intro e h
    unfold Seller.get_offer_ids at h
    cases hl : Seller.offerIdsLoop fetchS fuel "" [] with
    | error e2 =>
      rw [hl] at h
      dsimp only at h
      cases h
      exact offerIdsLoopS_error fetchS fuel "" [] _ hl
    | ok o =>
      rw [hl] at h
      cases o with
      | none => simp at h
      | some l => simp at h
  · intro ids h
    unfold Seller.get_offer_ids at h
    cases hl : Seller.offerIdsLoop fetchS fuel "" [] with
    | error e2 => rw [hl] at h; simp at h
    | ok o =>
      rw [hl] at h
      cases o with
      | none => simp at h
      | some l =>
        dsimp only at h
        cases h
        exact ⟨l, offerIdsLoopS_ok fetchS fuel "" [] l hl, rfl⟩
  · intro e h
    unfold Market.get_offer_ids at h
    cases hl : Market.offerIdsLoop fetchM fuel "" [] with
    | error e2 =>
      rw [hl] at h
      dsimp only at h
      cases h
      exact offerIdsLoopM_error fetchM fuel "" [] _ hl
    | ok o =>
      rw [hl] at h
      cases o with
      | none => simp at h
      | some l => simp at h
  · intro ids h
    unfold Market.get_offer_ids at h
    cases hl : Market.offerIdsLoop fetchM fuel "" [] with
    | error e2 => rw [hl] at h; simp at h
    | ok o =>
      rw [hl] at h
      cases o with
      | none => simp at h
      | some l =>
        dsimp only at h
        cases h
        exact ⟨l, offerIdsLoopM_ok fetchM fuel "" [] l hl, rfl⟩

/-- Witness for get_offer_ids_paginates: a collaborator that fails on every
page makes both fetchers propagate that error. -/
theorem get_offer_ids_paginates_witness :
    (PagedFetchS (fun _ : String => (Except.error 7 : Except Nat Seller.ProductPage))
        "" [] (Except.error 7) ∧
      ∃ _ : String, (Except.error 7 : Except Nat Seller.ProductPage) =
        Except.error 7) ∧
    (PagedFetchM (fun _ : String => (Except.error 7 : Except Nat Market.ProductPage))
        "" [] (Except.error 7) ∧
      ∃ _ : String, (Except.error 7 : Except Nat Market.ProductPage) =
        Except.error 7) := by
  constructor
  · exact (get_offer_ids_paginates Nat (fun _ => Except.error 7)
      (fun _ => Except.error 7) 3).1 7 rfl
  · exact (get_offer_ids_paginates Nat (fun _ => Except.error 7)
      (fun _ => Except.error 7) 3).2.2.1 7 rfl

end SellerApis
